import Mathlib

/-!
# Verification of the Asteroid language-server core

A shallow embedding of the tokenizer, symbol extractor, diagnostics
validator and query providers of `src/src/server.ts`, together with
theorems settling the frozen claims about them.

Conventions of the embedding:
* JavaScript strings are modelled as `List Char`; `text[pos]` out of
  range (JS `undefined`, falsy) is modelled by `Option Char` via `get?`.
* Token `type` tags keep the source's string literals
  (`"STRING"`, `"NUMBER"`, ...); the optional `valid` field of string
  tokens is an `Option Bool` (`none` = JS `undefined`).
* JS `Map` is modelled as an association list with `mapSet` replacing an
  existing key in place (JS `Map.set` keeps insertion order) and
  `mapGet` returning the first binding.
-/

namespace Asteroid

/-- Mutable state of `AsteroidLexer`: the input text and the current
scan position, line and column. -/
structure LexState where
  text : List Char
  pos : Nat
  line : Nat
  column : Nat
deriving Repr, DecidableEq

/-- `AsteroidLexer.peek`: the character at the scan position, `none`
when out of range (JS returns the falsy `''`). -/
def peek (s : LexState) : Option Char :=
  s.text.get? s.pos

/-- `AsteroidLexer.advance`: step one character, tracking line/column.
JS compares `text[pos] === '\n'`; out of range this is false, so the
column branch is taken and `pos` still increments. -/
def advance (s : LexState) : LexState :=
  if s.text.get? s.pos = some '\n' then
    { s with line := s.line + 1, column := 0, pos := s.pos + 1 }
  else
    { s with column := s.column + 1, pos := s.pos + 1 }

@[simp] theorem advance_text (s : LexState) : (advance s).text = s.text := by
  unfold advance; split <;> rfl

@[simp] theorem advance_pos (s : LexState) : (advance s).pos = s.pos + 1 := by
  unfold advance; split <;> rfl

theorem lt_of_peek {s : LexState} {c : Char} (h : s.text.get? s.pos = some c) :
    s.pos < s.text.length := by
  exact (List.get?_eq_some.mp h).1

/-- The JS regex `/\s/` restricted to the ASCII whitespace the source
text can realistically contain (space, tab, newline, CR, VT, FF). -/
def isJsWhitespace (c : Char) : Bool :=
  c = ' ' || c = '\t' || c = '\n' || c = '\r' || c = '\x0b' || c = '\x0c'

/-- The JS regex `/[a-zA-Z0-9_]/`. -/
def isWordChar (c : Char) : Bool :=
  c.isAlpha || c.isDigit || c = '_'

/-- `AsteroidLexer.skipWhitespace`: advance while the current character
matches `/\s/`. -/
def skipWhitespace (s : LexState) : LexState :=
  match h : s.text.get? s.pos with
  | some c => if isJsWhitespace c then skipWhitespace (advance s) else s
  | none => s
termination_by s.text.length - s.pos
decreasing_by
  have := lt_of_peek h
  simp only [advance_text, advance_pos]
  omega

/-- Body of the `while` in `AsteroidLexer.skipComment`: advance until a
newline or end of text. -/
def skipCommentLoop (s : LexState) : LexState :=
  match h : s.text.get? s.pos with
  | some c => if c ≠ '\n' then skipCommentLoop (advance s) else s
  | none => s
termination_by s.text.length - s.pos
decreasing_by
  have := lt_of_peek h
  simp only [advance_text, advance_pos]
  omega

/-- `AsteroidLexer.skipComment`: when the current character is the
comment lead `'%'`, consume through (but not including) end-of-line. -/
def skipComment (s : LexState) : LexState :=
  if s.text.get? s.pos = some '%' then skipCommentLoop s else s

/-- Result of `AsteroidLexer.readString`: the accumulated value, the
validity flag, and the lexer state after the scan. -/
structure StrResult where
  value : List Char
  valid : Bool
  state : LexState
deriving Repr, DecidableEq

/-- The `while` loop of `AsteroidLexer.readString` together with the
closing-quote check that follows it.  `q` is the opening quote
character, `acc` the value accumulated so far. -/
def readStringLoop (q : Char) (s : LexState) (acc : List Char) : StrResult :=
  match h : s.text.get? s.pos with
  | some c =>
    if c = q then
      -- loop exit `peek === quote`: skip the closing quote, valid
      ⟨acc, true, advance s⟩
    else if c = '\\' then
      -- skip the escape; append the next character if there is one
      match (advance s).text.get? (advance s).pos with
      | some c2 => readStringLoop q (advance (advance s)) (acc ++ [c2])
      | none => readStringLoop q (advance s) acc
    else
      readStringLoop q (advance s) (acc ++ [c])
  | none =>
    -- loop exit on end of text: unterminated string
    ⟨acc, false, s⟩
termination_by s.text.length - s.pos
decreasing_by
  all_goals
    (have hlt : s.pos < s.text.length := lt_of_peek (by assumption)
     simp only [advance_text, advance_pos]
     omega)

/-- `AsteroidLexer.readString`: read the opening quote at the current
position and scan for its match. -/
def readString (s : LexState) (h : s.pos < s.text.length) : StrResult :=
  readStringLoop (s.text.get ⟨s.pos, h⟩) (advance s) []

/-- `AsteroidLexer.readNumber`: greedily consume `/[\d.]/` characters. -/
def readNumber (s : LexState) : List Char × LexState :=
  match h : s.text.get? s.pos with
  | some c =>
    if c.isDigit || c = '.' then
      ((c :: (readNumber (advance s)).1, (readNumber (advance s)).2))
    else ([], s)
  | none => ([], s)
termination_by s.text.length - s.pos
decreasing_by
  have := lt_of_peek h
  simp only [advance_text, advance_pos]
  omega

/-- `AsteroidLexer.readIdentifier`: greedily consume `/[a-zA-Z0-9_]/`
characters. -/
def readIdentifier (s : LexState) : List Char × LexState :=
  match h : s.text.get? s.pos with
  | some c =>
    if isWordChar c then
      ((c :: (readIdentifier (advance s)).1, (readIdentifier (advance s)).2))
    else ([], s)
  | none => ([], s)
termination_by s.text.length - s.pos
decreasing_by
  have := lt_of_peek h
  simp only [advance_text, advance_pos]
  omega

/-- The fixed reserved-word list `KEYWORDS` of the server. -/
def KEYWORDS : List (List Char) :=
  ["and".toList, "assert".toList, "break".toList, "catch".toList, "class".toList,
   "constructor".toList, "data".toList, "do".toList, "elif".toList, "else".toList,
   "end".toList, "escape".toList, "eval".toList, "false".toList, "for".toList,
   "function".toList, "global".toList, "if".toList, "in".toList, "is".toList,
   "lambda".toList, "let".toList, "load".toList, "loop".toList, "match".toList,
   "module".toList, "none".toList, "nonlocal".toList, "not".toList, "or".toList,
   "return".toList, "step".toList, "struct".toList, "system".toList, "throw".toList,
   "to".toList, "true".toList, "try".toList, "unload".toList, "until".toList,
   "while".toList, "with".toList, "yield".toList]

/-- The fixed builtin-function list `BUILTIN_FUNCTIONS` of the server. -/
def BUILTIN_FUNCTIONS : List (List Char) :=
  ["abs".toList, "all".toList, "any".toList, "apply".toList, "bool".toList,
   "call".toList, "chr".toList, "cmp".toList, "dict".toList, "enumerate".toList,
   "filter".toList, "float".toList, "format".toList, "freeze".toList,
   "frozenset".toList, "hash".toList, "help".toList, "id".toList, "int".toList,
   "isinstance".toList, "issubclass".toList, "iter".toList, "len".toList,
   "list".toList, "map".toList, "max".toList, "min".toList, "ord".toList,
   "println".toList, "range".toList, "reduce".toList, "repr".toList,
   "reverse".toList, "round".toList, "set".toList, "sorted".toList, "str".toList,
   "sum".toList, "tuple".toList, "type".toList, "zip".toList]

/-- The fixed system-module list `SYSTEM_MODULES` of the server. -/
def SYSTEM_MODULES : List (List Char) :=
  ["io".toList, "math".toList, "os".toList, "random".toList, "string".toList,
   "time".toList, "util".toList]

/-- A token of `AsteroidLexer.tokenize`: type tag, text value, 0-based
start line/column, and the optional validity flag of string tokens. -/
structure Token where
  type : String
  value : List Char
  line : Nat
  column : Nat
  valid : Option Bool
deriving Repr, DecidableEq

/-- The two-character operator table `['==','!=','<=','>=','->','=>']`,
probed by literal prefix match.  All entries have length two, so the
probe succeeds exactly when the next two characters form an entry. -/
def isTwoCharOp (c c2 : Char) : Bool :=
  (c = '=' && c2 = '=') || (c = '!' && c2 = '=') || (c = '<' && c2 = '=') ||
  (c = '>' && c2 = '=') || (c = '-' && c2 = '>') || (c = '=' && c2 = '>')

/-- One dispatch step of the `tokenize` loop (after the skips and the
end check): classify the current character and read one token.  The
token's `line`/`column` are the `startLine`/`startColumn` captured
before reading, i.e. `s.line`/`s.column`. -/
def scanToken (s : LexState) (h : s.pos < s.text.length) : Token × LexState :=
  if (s.text.get ⟨s.pos, h⟩) = '"' || (s.text.get ⟨s.pos, h⟩) = '\'' then
    (⟨"STRING", (readString s h).value, s.line, s.column, some (readString s h).valid⟩,
     (readString s h).state)
  else if (s.text.get ⟨s.pos, h⟩).isDigit then
    (⟨"NUMBER", (readNumber s).1, s.line, s.column, none⟩, (readNumber s).2)
  else if (s.text.get ⟨s.pos, h⟩).isAlpha || (s.text.get ⟨s.pos, h⟩) = '_' then
    (⟨if KEYWORDS.contains (readIdentifier s).1 then "KEYWORD" else "IDENTIFIER",
      (readIdentifier s).1, s.line, s.column, none⟩, (readIdentifier s).2)
  else if (s.text.get ⟨s.pos, h⟩) = '@' then
    (⟨"AT", ['@'], s.line, s.column, none⟩, advance s)
  else
    match s.text.get? (s.pos + 1) with
    | some c2 =>
      if isTwoCharOp (s.text.get ⟨s.pos, h⟩) c2 then
        (⟨"OPERATOR", [s.text.get ⟨s.pos, h⟩, c2], s.line, s.column, none⟩,
         advance (advance s))
      else
        (⟨"PUNCTUATION", [s.text.get ⟨s.pos, h⟩], s.line, s.column, none⟩, advance s)
    | none =>
      (⟨"PUNCTUATION", [s.text.get ⟨s.pos, h⟩], s.line, s.column, none⟩, advance s)

theorem skipWhitespace_text (s : LexState) : (skipWhitespace s).text = s.text := by
  unfold skipWhitespace
  split
  · split
    · rw [skipWhitespace_text (advance s)]
      exact advance_text s
    · rfl
  · rfl
termination_by s.text.length - s.pos
decreasing_by
  rename_i h _
  have := lt_of_peek h
  simp only [advance_text, advance_pos]
  omega

theorem skipWhitespace_pos_le (s : LexState) : s.pos ≤ (skipWhitespace s).pos := by
  unfold skipWhitespace
  split
  · split
    · have := skipWhitespace_pos_le (advance s)
      simp only [advance_pos] at this
      omega
    · exact Nat.le_refl _
  · exact Nat.le_refl _
termination_by s.text.length - s.pos
decreasing_by
  rename_i h _
  have := lt_of_peek h
  simp only [advance_text, advance_pos]
  omega

theorem skipCommentLoop_text (s : LexState) : (skipCommentLoop s).text = s.text := by
  unfold skipCommentLoop
  split
  · split
    · rw [skipCommentLoop_text (advance s)]
      exact advance_text s
    · rfl
  · rfl
termination_by s.text.length - s.pos
decreasing_by
  rename_i h _
  have := lt_of_peek h
  simp only [advance_text, advance_pos]
  omega

theorem skipCommentLoop_pos_le (s : LexState) : s.pos ≤ (skipCommentLoop s).pos := by
  unfold skipCommentLoop
  split
  · split
    · have := skipCommentLoop_pos_le (advance s)
      simp only [advance_pos] at this
      omega
    · exact Nat.le_refl _
  · exact Nat.le_refl _
termination_by s.text.length - s.pos
decreasing_by
  rename_i h _
  have := lt_of_peek h
  simp only [advance_text, advance_pos]
  omega

theorem skipComment_text (s : LexState) : (skipComment s).text = s.text := by
  unfold skipComment
  split
  · exact skipCommentLoop_text s
  · rfl

theorem skipComment_pos_le (s : LexState) : s.pos ≤ (skipComment s).pos := by
  unfold skipComment
  split
  · exact skipCommentLoop_pos_le s
  · exact Nat.le_refl _

theorem readStringLoop_eq_quote (q : Char) (s : LexState) (acc : List Char)
    (h : s.text.get? s.pos = some q) :
    readStringLoop q s acc = ⟨acc, true, advance s⟩ := by
  conv_lhs => rw [readStringLoop.eq_def]
  split
  · rename_i c heq
    rw [h] at heq
    injection heq with hc
    subst hc
    simp
  · rename_i heq
    rw [h] at heq
    cases heq

theorem readStringLoop_eq_esc_some (q : Char) (s : LexState) (acc : List Char)
    (c2 : Char) (h : s.text.get? s.pos = some '\\') (hq : ¬('\\' = q))
    (h2 : (advance s).text.get? (advance s).pos = some c2) :
    readStringLoop q s acc = readStringLoop q (advance (advance s)) (acc ++ [c2]) := by
  conv_lhs => rw [readStringLoop.eq_def]
  split
  · rename_i c heq
    rw [h] at heq
    injection heq with hc
    subst hc
    rw [if_neg hq, if_pos rfl]
    split
    · rename_i c2' heq2
      rw [h2] at heq2
      injection heq2 with hc2
      subst hc2
      rfl
    · rename_i heq2
      rw [h2] at heq2
      cases heq2
  · rename_i heq
    rw [h] at heq
    cases heq

theorem readStringLoop_eq_esc_none (q : Char) (s : LexState) (acc : List Char)
    (h : s.text.get? s.pos = some '\\') (hq : ¬('\\' = q))
    (h2 : (advance s).text.get? (advance s).pos = none) :
    readStringLoop q s acc = readStringLoop q (advance s) acc := by
  conv_lhs => rw [readStringLoop.eq_def]
  split
  · rename_i c heq
    rw [h] at heq
    injection heq with hc
    subst hc
    rw [if_neg hq, if_pos rfl]
    split
    · rename_i c2' heq2
      rw [h2] at heq2
      cases heq2
    · rfl
  · rename_i heq
    rw [h] at heq
    cases heq

theorem readStringLoop_eq_other (q : Char) (s : LexState) (acc : List Char)
    (c : Char) (h : s.text.get? s.pos = some c) (hq : ¬(c = q)) (hb : ¬(c = '\\')) :
    readStringLoop q s acc = readStringLoop q (advance s) (acc ++ [c]) := by
  conv_lhs => rw [readStringLoop.eq_def]
  split
  · rename_i c' heq
    rw [h] at heq
    injection heq with hc
    subst hc
    rw [if_neg hq, if_neg hb]
  · rename_i heq
    rw [h] at heq
    cases heq

theorem readStringLoop_eq_none (q : Char) (s : LexState) (acc : List Char)
    (h : s.text.get? s.pos = none) :
    readStringLoop q s acc = ⟨acc, false, s⟩ := by
  conv_lhs => rw [readStringLoop.eq_def]
  split
  · rename_i c heq
    rw [h] at heq
    cases heq
  · rfl

theorem readStringLoop_text (q : Char) (s : LexState) (acc : List Char) :
    (readStringLoop q s acc).state.text = s.text := by
  induction s, acc using readStringLoop.induct q with
  | case1 s acc h =>
    rw [readStringLoop_eq_quote q s acc h]
    simp
  | case2 s acc c2 h2 h hq ih =>
    rw [readStringLoop_eq_esc_some q s acc c2 h hq h2]
    simpa using ih
  | case3 s acc h2 h hq ih =>
    rw [readStringLoop_eq_esc_none q s acc h hq h2]
    simpa using ih
  | case4 s acc c h hq hb ih =>
    rw [readStringLoop_eq_other q s acc c h hq hb]
    simpa using ih
  | case5 s acc h =>
    rw [readStringLoop_eq_none q s acc h]

theorem readStringLoop_pos_le (q : Char) (s : LexState) (acc : List Char) :
    s.pos ≤ (readStringLoop q s acc).state.pos := by
  induction s, acc using readStringLoop.induct q with
  | case1 s acc h =>
    rw [readStringLoop_eq_quote q s acc h]
    simp
  | case2 s acc c2 h2 h hq ih =>
    rw [readStringLoop_eq_esc_some q s acc c2 h hq h2]
    simp only [advance_pos] at ih
    omega
  | case3 s acc h2 h hq ih =>
    rw [readStringLoop_eq_esc_none q s acc h hq h2]
    simp only [advance_pos] at ih
    omega
  | case4 s acc c h hq hb ih =>
    rw [readStringLoop_eq_other q s acc c h hq hb]
    simp only [advance_pos] at ih
    omega
  | case5 s acc h =>
    rw [readStringLoop_eq_none q s acc h]

theorem readNumber_text (s : LexState) : (readNumber s).2.text = s.text := by
  unfold readNumber
  split
  · split
    · dsimp only
      rw [readNumber_text (advance s)]
      exact advance_text s
    · rfl
  · rfl
termination_by s.text.length - s.pos
decreasing_by
  have hlt : s.pos < s.text.length := lt_of_peek (by assumption)
  simp only [advance_text, advance_pos]
  omega

theorem readNumber_pos_le (s : LexState) : s.pos ≤ (readNumber s).2.pos := by
  unfold readNumber
  split
  · split
    · dsimp only
      have := readNumber_pos_le (advance s)
      simp only [advance_pos] at this
      omega
    · exact Nat.le_refl _
  · exact Nat.le_refl _
termination_by s.text.length - s.pos
decreasing_by
  have hlt : s.pos < s.text.length := lt_of_peek (by assumption)
  simp only [advance_text, advance_pos]
  omega

theorem readIdentifier_text (s : LexState) : (readIdentifier s).2.text = s.text := by
  unfold readIdentifier
  split
  · split
    · dsimp only
      rw [readIdentifier_text (advance s)]
      exact advance_text s
    · rfl
  · rfl
termination_by s.text.length - s.pos
decreasing_by
  have hlt : s.pos < s.text.length := lt_of_peek (by assumption)
  simp only [advance_text, advance_pos]
  omega

theorem readIdentifier_pos_le (s : LexState) : s.pos ≤ (readIdentifier s).2.pos := by
  unfold readIdentifier
  split
  · split
    · dsimp only
      have := readIdentifier_pos_le (advance s)
      simp only [advance_pos] at this
      omega
    · exact Nat.le_refl _
  · exact Nat.le_refl _
termination_by s.text.length - s.pos
decreasing_by
  have hlt : s.pos < s.text.length := lt_of_peek (by assumption)
  simp only [advance_text, advance_pos]
  omega

theorem scanToken_text (s : LexState) (h : s.pos < s.text.length) :
    (scanToken s h).2.text = s.text := by
  unfold scanToken readString
  split
  · rw [readStringLoop_text]
    simp
  · split
    · exact readNumber_text s
    · split
      · exact readIdentifier_text s
      · split
        · exact advance_text s
        · split
          · split
            · simp
            · exact advance_text s
          · exact advance_text s

theorem scanToken_pos_gt (s : LexState) (h : s.pos < s.text.length) :
    s.pos < (scanToken s h).2.pos := by
  unfold scanToken readString
  split
  · have := readStringLoop_pos_le (s.text.get ⟨s.pos, h⟩) (advance s) []
    simp only [advance_pos] at this
    simp only []
    omega
  · split
    · -- number branch: the current character is a digit, so the first
      -- iteration of readNumber consumes it
      rename_i hd
      unfold readNumber
      have hg : s.text.get? s.pos = some (s.text.get ⟨s.pos, h⟩) := List.get?_eq_get h
      rw [hg]
      simp only [hd, Bool.true_or, if_pos]
      have := readNumber_pos_le (advance s)
      simp only [advance_pos] at this
      omega
    · split
      · rename_i ha
        unfold readIdentifier
        have hg : s.text.get? s.pos = some (s.text.get ⟨s.pos, h⟩) := List.get?_eq_get h
        rw [hg]
        have hw : isWordChar (s.text.get ⟨s.pos, h⟩) = true := by
          rcases Bool.or_eq_true_iff.mp ha with h1 | h1
          · simp only [isWordChar, h1, Bool.true_or]
          · simp only [isWordChar, h1, Bool.or_true]
        simp only [hw, if_pos]
        have := readIdentifier_pos_le (advance s)
        simp only [advance_pos] at this
        omega
      · split
        · simp only [advance_pos]
          omega
        · split
          · split
            · simp only [advance_pos]
              omega
            · simp only [advance_pos]
              omega
          · simp only [advance_pos]
            omega

/-- The scan loop of `AsteroidLexer.tokenize`: while characters remain,
skip whitespace, then a comment, re-check for end of text (`break`),
and read one token. -/
def tokenizeLoop (s : LexState) : List Token :=
  if h : s.pos < s.text.length then
    if h2 : (skipComment (skipWhitespace s)).pos < (skipComment (skipWhitespace s)).text.length then
      (scanToken (skipComment (skipWhitespace s)) h2).1 ::
        tokenizeLoop (scanToken (skipComment (skipWhitespace s)) h2).2
    else []
  else []
termination_by s.text.length - s.pos
decreasing_by
  have h3 := scanToken_pos_gt (skipComment (skipWhitespace s)) h2
  have h4 := scanToken_text (skipComment (skipWhitespace s)) h2
  have h5 := skipWhitespace_pos_le s
  have h6 := skipComment_pos_le (skipWhitespace s)
  have h7 := skipWhitespace_text s
  have h8 := skipComment_text (skipWhitespace s)
  rw [h4, h8, h7]
  rw [h8, h7] at h2
  omega

/-- `AsteroidLexer.tokenize`: scan the whole text from the initial
lexer state (`pos = 0`, `line = 0`, `column = 0`). -/
def tokenize (text : List Char) : List Token :=
  tokenizeLoop ⟨text, 0, 0, 0⟩

theorem tokenizeLoop_length (s : LexState) :
    (tokenizeLoop s).length ≤ s.text.length - s.pos := by
  induction s using tokenizeLoop.induct with
  | case1 s h h2 ih =>
    unfold tokenizeLoop
    rw [dif_pos h, dif_pos h2]
    have h3 := scanToken_pos_gt (skipComment (skipWhitespace s)) h2
    have h4 := scanToken_text (skipComment (skipWhitespace s)) h2
    have h5 := skipWhitespace_pos_le s
    have h6 := skipComment_pos_le (skipWhitespace s)
    have h7 := skipWhitespace_text s
    have h8 := skipComment_text (skipWhitespace s)
    simp only [List.length_cons]
    rw [h4, h8, h7] at ih
    omega
  | case2 s h h2 =>
    unfold tokenizeLoop
    rw [dif_pos h, dif_neg h2]
    simp
  | case3 s h =>
    unfold tokenizeLoop
    rw [dif_neg h]
    simp

/-- An LSP `Position`: 0-based line and character. -/
structure LspPos where
  line : Nat
  character : Nat
deriving Repr, DecidableEq

/-- An LSP `Range`; the source's `end` field is named `stop` here
because `end` is reserved in Lean. -/
structure LspRange where
  start : LspPos
  stop : LspPos
deriving Repr, DecidableEq

/-- The `SymbolKind` values used by the server: `SymbolKind.Function`,
`SymbolKind.Variable` and `SymbolKind.Struct`. -/
inductive SymKind where
  | Function
  | Variable
  | Struct
deriving Repr, DecidableEq

/-- `AsteroidSymbol`: a named declaration.  The `detail` field of the
source is never assigned and is omitted; `type` is the display type
(`"function"`, `"variable"`, or the struct/data keyword text). -/
structure AsteroidSymbol where
  name : List Char
  kind : SymKind
  range : LspRange
  selectionRange : LspRange
  type : List Char
deriving Repr, DecidableEq

/-- `DocumentInfo`: the per-document symbol table, import list, and the
function/variable sub-maps.  JS `Map`s are association lists. -/
structure DocumentInfo where
  symbols : List (List Char × AsteroidSymbol)
  imports : List (List Char)
  functions : List (List Char × AsteroidSymbol)
  «variables» : List (List Char × AsteroidSymbol)
deriving Repr, DecidableEq

/-- JS `Map.get`: the binding of `k`, if any. -/
def mapGet (m : List (List Char × AsteroidSymbol)) (k : List Char) :
    Option AsteroidSymbol :=
  match m with
  | [] => none
  | p :: rest => if p.1 = k then some p.2 else mapGet rest k

/-- JS `Map.set`: replace the binding of `k` in place if present
(retaining insertion order), else append it. -/
def mapSet (m : List (List Char × AsteroidSymbol)) (k : List Char)
    (v : AsteroidSymbol) : List (List Char × AsteroidSymbol) :=
  match m with
  | [] => [(k, v)]
  | p :: rest => if p.1 = k then (k, v) :: rest else p :: mapSet rest k v

/-- `AsteroidParser.parseLoad`.  The parser's `advance` consumes the
`load` keyword (the caller guarantees `pos < ts.length`); on `system`
followed by an Identifier the identifier's text is appended to the list
of imports; any deviation leaves the `DocumentInfo` unchanged.
Returns the new token position and the updated info. -/
def parseLoad (ts : List Token) (pos : Nat) (info : DocumentInfo) :
    Nat × DocumentInfo :=
  match ts.get? (pos + 1) with
  | some sysTok =>
    if sysTok.type = "KEYWORD" ∧ sysTok.value = "system".toList then
      match ts.get? (pos + 2) with
      | some modTok =>
        if modTok.type = "IDENTIFIER" then
          (pos + 3, { info with imports := info.imports ++ [modTok.value] })
        else (pos + 2, info)
      | none => (pos + 2, info)
    else (pos + 1, info)
  | none => (pos + 1, info)

/-- `AsteroidParser.parseFunction`: `startToken = advance()` is the
token at `pos`; if the next token is an Identifier, record a Function
symbol whose range runs from the keyword token's own line/column to the
identifier's line/column plus the name length. -/
def parseFunction (ts : List Token) (pos : Nat) (info : DocumentInfo) :
    Nat × DocumentInfo :=
  match ts.get? pos, ts.get? (pos + 1) with
  | some startTok, some nameTok =>
    if nameTok.type = "IDENTIFIER" then
      (pos + 2,
       { info with
         functions := mapSet info.functions nameTok.value
           ⟨nameTok.value, SymKind.Function,
            ⟨⟨startTok.line, startTok.column⟩,
             ⟨nameTok.line, nameTok.column + nameTok.value.length⟩⟩,
            ⟨⟨startTok.line, startTok.column⟩,
             ⟨nameTok.line, nameTok.column + nameTok.value.length⟩⟩,
            "function".toList⟩,
         symbols := mapSet info.symbols nameTok.value
           ⟨nameTok.value, SymKind.Function,
            ⟨⟨startTok.line, startTok.column⟩,
             ⟨nameTok.line, nameTok.column + nameTok.value.length⟩⟩,
            ⟨⟨startTok.line, startTok.column⟩,
             ⟨nameTok.line, nameTok.column + nameTok.value.length⟩⟩,
            "function".toList⟩ })
    else (pos + 1, info)
  | some _, none => (pos + 1, info)
  | none, _ => (pos, info)

/-- `AsteroidParser.parseVariable`: like `parseFunction` but for `let`,
recording a Variable symbol in `variables` and `symbols`. -/
def parseVariable (ts : List Token) (pos : Nat) (info : DocumentInfo) :
    Nat × DocumentInfo :=
  match ts.get? pos, ts.get? (pos + 1) with
  | some startTok, some nameTok =>
    if nameTok.type = "IDENTIFIER" then
      (pos + 2,
       { info with
         «variables» := mapSet info.«variables» nameTok.value
           ⟨nameTok.value, SymKind.Variable,
            ⟨⟨startTok.line, startTok.column⟩,
             ⟨nameTok.line, nameTok.column + nameTok.value.length⟩⟩,
            ⟨⟨startTok.line, startTok.column⟩,
             ⟨nameTok.line, nameTok.column + nameTok.value.length⟩⟩,
            "variable".toList⟩,
         symbols := mapSet info.symbols nameTok.value
           ⟨nameTok.value, SymKind.Variable,
            ⟨⟨startTok.line, startTok.column⟩,
             ⟨nameTok.line, nameTok.column + nameTok.value.length⟩⟩,
            ⟨⟨startTok.line, startTok.column⟩,
             ⟨nameTok.line, nameTok.column + nameTok.value.length⟩⟩,
            "variable".toList⟩ })
    else (pos + 1, info)
  | some _, none => (pos + 1, info)
  | none, _ => (pos, info)

/-- `AsteroidParser.parseStruct`: for `struct`/`data`, recording a
Struct symbol in `symbols` only, with `type` the keyword's own text. -/
def parseStruct (ts : List Token) (pos : Nat) (info : DocumentInfo) :
    Nat × DocumentInfo :=
  match ts.get? pos, ts.get? (pos + 1) with
  | some startTok, some nameTok =>
    if nameTok.type = "IDENTIFIER" then
      (pos + 2,
       { info with
         symbols := mapSet info.symbols nameTok.value
           ⟨nameTok.value, SymKind.Struct,
            ⟨⟨startTok.line, startTok.column⟩,
             ⟨nameTok.line, nameTok.column + nameTok.value.length⟩⟩,
            ⟨⟨startTok.line, startTok.column⟩,
             ⟨nameTok.line, nameTok.column + nameTok.value.length⟩⟩,
            startTok.value⟩ })
    else (pos + 1, info)
  | some _, none => (pos + 1, info)
  | none, _ => (pos, info)

theorem parseLoad_fst_gt (ts : List Token) (pos : Nat) (info : DocumentInfo) :
    pos < (parseLoad ts pos info).1 := by
  unfold parseLoad
  split
  · split
    · split
      · split
        · omega
        · omega
      · omega
    · omega
  · omega

theorem parseFunction_fst_gt (ts : List Token) (pos : Nat) (info : DocumentInfo)
    (h : pos < ts.length) : pos < (parseFunction ts pos info).1 := by
  unfold parseFunction
  split
  · split
    · omega
    · omega
  · omega
  · rename_i heq
    rw [List.get?_eq_get h] at heq
    cases heq

theorem parseVariable_fst_gt (ts : List Token) (pos : Nat) (info : DocumentInfo)
    (h : pos < ts.length) : pos < (parseVariable ts pos info).1 := by
  unfold parseVariable
  split
  · split
    · omega
    · omega
  · omega
  · rename_i heq
    rw [List.get?_eq_get h] at heq
    cases heq

theorem parseStruct_fst_gt (ts : List Token) (pos : Nat) (info : DocumentInfo)
    (h : pos < ts.length) : pos < (parseStruct ts pos info).1 := by
  unfold parseStruct
  split
  · split
    · omega
    · omega
  · omega
  · rename_i heq
    rw [List.get?_eq_get h] at heq
    cases heq

/-- The dispatch loop of `AsteroidParser.parse`: while tokens remain
(`peek()` is non-null), on a `KEYWORD` token whose value is
`load`/`function`/`let`/`struct`/`data` call the matching handler; any
other token is skipped by advancing one position. -/
def parseLoop (ts : List Token) (pos : Nat) (info : DocumentInfo) : DocumentInfo :=
  match hT : ts.get? pos with
  | some t =>
    if t.type = "KEYWORD" then
      if t.value = "load".toList then
        parseLoop ts (parseLoad ts pos info).1 (parseLoad ts pos info).2
      else if t.value = "function".toList then
        parseLoop ts (parseFunction ts pos info).1 (parseFunction ts pos info).2
      else if t.value = "let".toList then
        parseLoop ts (parseVariable ts pos info).1 (parseVariable ts pos info).2
      else if t.value = "struct".toList ∨ t.value = "data".toList then
        parseLoop ts (parseStruct ts pos info).1 (parseStruct ts pos info).2
      else parseLoop ts (pos + 1) info
    else parseLoop ts (pos + 1) info
  | none => info
termination_by ts.length - pos
decreasing_by
  · have hlen := (List.get?_eq_some.mp hT).1
    have := parseLoad_fst_gt ts pos info
    omega
  · have hlen := (List.get?_eq_some.mp hT).1
    have := parseFunction_fst_gt ts pos info hlen
    omega
  · have hlen := (List.get?_eq_some.mp hT).1
    have := parseVariable_fst_gt ts pos info hlen
    omega
  · have hlen := (List.get?_eq_some.mp hT).1
    have := parseStruct_fst_gt ts pos info hlen
    omega
  · have hlen := (List.get?_eq_some.mp hT).1
    omega
  · have hlen := (List.get?_eq_some.mp hT).1
    omega

/-- `AsteroidParser.parse`: run the dispatch loop from position 0 with
an empty `DocumentInfo`. -/
def parse (ts : List Token) : DocumentInfo :=
  parseLoop ts 0 ⟨[], [], [], []⟩

/-- An LSP `Diagnostic` as built by `validateDocument`: severity
(`DiagnosticSeverity.Error = 1`), range, message, and source tag. -/
structure Diagnostic where
  severity : Nat
  range : LspRange
  message : String
  source : String
deriving Repr, DecidableEq

/-- The JS regex `/^\d+\.?\d*$/` as a decidable predicate: a nonempty
leading digit run, then optionally a `'.'` followed by only digits
(possibly none).  Backtracking adds nothing here: any accepted split is
also accepted with the maximal leading digit run, so the greedy reading
is the whole language. -/
def jsNumValid (cs : List Char) : Bool :=
  !(cs.takeWhile Char.isDigit).isEmpty &&
  (match cs.dropWhile Char.isDigit with
   | [] => true
   | '.' :: rest => rest.all Char.isDigit
   | _ => false)

/-- The "Unterminated string literal" diagnostic for a token, with the
range running from the token's start to start column + value length
+ 1. -/
def stringDiagFor (t : Token) : Diagnostic :=
  ⟨1, ⟨⟨t.line, t.column⟩, ⟨t.line, t.column + t.value.length + 1⟩⟩,
   "Unterminated string literal", "asteroid-lsp"⟩

/-- The "Invalid number format" diagnostic for a token, with the range
spanning the token's full text width. -/
def numDiagFor (t : Token) : Diagnostic :=
  ⟨1, ⟨⟨t.line, t.column⟩, ⟨t.line, t.column + t.value.length⟩⟩,
   "Invalid number format", "asteroid-lsp"⟩

/-- The diagnostics `validateDocument` pushes for one token: the
unterminated-string check (`type === 'STRING' && valid === false`)
followed by the number-format check
(`type === 'NUMBER' && !/^\d+\.?\d*$/.test(value)`). -/
def diagsFor (t : Token) : List Diagnostic :=
  (if t.type = "STRING" ∧ t.valid = some false then [stringDiagFor t] else []) ++
  (if t.type = "NUMBER" ∧ ¬(jsNumValid t.value = true) then [numDiagFor t] else [])

/-- `validateDocument`: scan the token sequence once, pushing the
per-token diagnostics in order. -/
def validateDocument (ts : List Token) : List Diagnostic :=
  ts.flatMap diagsFor

/-- The left scan of `getWordRangeAtPosition`: decrement `start` while
the preceding character is a word character. -/
def findStart (line : List Char) (start : Nat) : Nat :=
  match start with
  | 0 => 0
  | n + 1 =>
    match line.get? n with
    | some c => if isWordChar c then findStart line n else n + 1
    | none => n + 1

/-- The right scan of `getWordRangeAtPosition`: increment `e` while the
character there is a word character. -/
def findEnd (line : List Char) (e : Nat) : Nat :=
  match h : line.get? e with
  | some c => if isWordChar c then findEnd line (e + 1) else e
  | none => e
termination_by line.length - e
decreasing_by
  have := (List.get?_eq_some.mp h).1
  omega

/-- `getWordRangeAtPosition`: bounds check, scan left and right from
the cursor, and return `none` for an empty run.  The source's
`character < 0` check is vacuous for `Nat`. -/
def getWordRangeAtPosition (line : List Char) (character : Nat) :
    Option (Nat × Nat) :=
  if character < line.length then
    if findStart line character = findEnd line character then none
    else some (findStart line character, findEnd line character)
  else none

/-- An LSP `CompletionItem` as built by the completion provider.  The
kind tags keep the LSP numeric values: Function 3, Variable 6, Class 7,
Module 9, Keyword 14. -/
structure CompletionItem where
  label : List Char
  kind : Nat
  detail : List Char
deriving Repr, DecidableEq

/-- The completion item built for a document symbol: kind mapped from
the symbol kind (Function → Function, Variable → Variable, otherwise
Class), detail `` `${symbol.type}: ${symbol.name}` ``. -/
def symbolItem (sym : AsteroidSymbol) : CompletionItem :=
  ⟨sym.name,
   match sym.kind with
   | SymKind.Function => 3
   | SymKind.Variable => 6
   | SymKind.Struct => 7,
   sym.type ++ ": ".toList ++ sym.name⟩

/-- `connection.onCompletion`: keywords, builtins, system modules, then
the document's symbols.  The position parameter is accepted but unused
(the handler reads only the document's cached info); `docInfo` models
`documentInfos.get(uri)`. -/
def onCompletion (docInfo : Option DocumentInfo) (pos : LspPos) :
    List CompletionItem :=
  (KEYWORDS.map fun k => ⟨k, 14, "Asteroid keyword: ".toList ++ k⟩) ++
  (BUILTIN_FUNCTIONS.map fun f => ⟨f, 3, "Built-in function: ".toList ++ f⟩) ++
  (SYSTEM_MODULES.map fun m => ⟨m, 9, "System module: ".toList ++ m⟩) ++
  (match docInfo with
   | some di => di.symbols.map fun p => symbolItem p.2
   | none => [])

theorem readStringLoop_stop (q : Char) (s : LexState) (acc : List Char) :
    s.pos ≤ s.text.length →
    ((readStringLoop q s acc).valid = false →
      (readStringLoop q s acc).state.pos = s.text.length) ∧
    ((readStringLoop q s acc).valid = true →
      ∃ p, (readStringLoop q s acc).state.pos = p + 1 ∧ s.text.get? p = some q) := by
  induction s, acc using readStringLoop.induct q with
  | case1 s acc h =>
    intro _
    rw [readStringLoop_eq_quote q s acc h]
    constructor
    · intro hf
      cases hf
    · intro _
      exact ⟨s.pos, by simp, h⟩
  | case2 s acc c2 h2 h hq ih =>
    intro _
    rw [readStringLoop_eq_esc_some q s acc c2 h hq h2]
    have hlt2 := lt_of_peek h2
    simp only [advance_text, advance_pos] at hlt2
    have hle2 : (advance (advance s)).pos ≤ (advance (advance s)).text.length := by
      simp only [advance_text, advance_pos]
      omega
    have := ih hle2
    simp only [advance_text] at this
    exact this
  | case3 s acc h2 h hq ih =>
    intro _
    rw [readStringLoop_eq_esc_none q s acc h hq h2]
    have hlt := lt_of_peek h
    have hle2 : (advance s).pos ≤ (advance s).text.length := by
      simp only [advance_text, advance_pos]
      omega
    have := ih hle2
    simp only [advance_text] at this
    exact this
  | case4 s acc c h hq hb ih =>
    intro _
    rw [readStringLoop_eq_other q s acc c h hq hb]
    have hlt := lt_of_peek h
    have hle2 : (advance s).pos ≤ (advance s).text.length := by
      simp only [advance_text, advance_pos]
      omega
    have := ih hle2
    simp only [advance_text] at this
    exact this
  | case5 s acc h =>
    intro hle
    rw [readStringLoop_eq_none q s acc h]
    constructor
    · intro _
      have := List.get?_eq_none.mp h
      show s.pos = s.text.length
      omega
    · intro ht
      cases ht

/-- C1 counterexample: a string literal whose closing quote appears
only on the next line still produces a token with the validity flag
`true` — the string scan of `readString` does not stop at end-of-line,
contradicting the claim that such a literal yields validity `false`. -/
theorem C1_counterexample :
    tokenize "\"a\nb\"".toList = [⟨"STRING", ['a', '\n', 'b'], 0, 0, some true⟩] := by
  simp [tokenize, tokenizeLoop, scanToken, readString, readStringLoop, readNumber,
        readIdentifier, skipWhitespace, skipCommentLoop, skipComment, advance,
        isJsWhitespace, isWordChar, KEYWORDS, isTwoCharOp]

/-- C1 (amended): begun at a quote character, the string scan consumes
characters until a matching unescaped quote or end-of-text — but not
end-of-line.  When the produced validity flag is `false` the scan
stopped exactly at end of text; when it is `true` the scan stopped just
past an occurrence of the opening quote character. -/
theorem C1_string_scan_stops_at_quote_or_eot :
    ∀ (s : LexState) (h : s.pos < s.text.length),
      ((readString s h).valid = false → (readString s h).state.pos = s.text.length) ∧
      ((readString s h).valid = true →
        ∃ p, (readString s h).state.pos = p + 1 ∧
          s.text.get? p = some (s.text.get ⟨s.pos, h⟩)) := by
  intro s h
  unfold readString
  have hle : (advance s).pos ≤ (advance s).text.length := by
    simp only [advance_text, advance_pos]
    omega
  have := readStringLoop_stop (s.text.get ⟨s.pos, h⟩) (advance s) [] hle
  simp only [advance_text] at this
  exact this

/-- Witness for C1: on the unterminated input `"ab` the scan stops at
end of text (position 3 = the text length). -/
theorem C1_string_scan_stops_at_quote_or_eot_witness :
    (readString ⟨"\"ab".toList, 0, 0, 0⟩ (by decide)).state.pos =
      ("\"ab".toList : List Char).length :=
  (C1_string_scan_stops_at_quote_or_eot ⟨"\"ab".toList, 0, 0, 0⟩ (by decide)).1
    (by simp [readString, readStringLoop, advance])

/-- C2 counterexample: the input `1.` produces a single Number token
whose text `1.` matches the code's `/^\d+\.?\d*$/`, so `validateDocument`
emits no diagnostic — contradicting the claim that this token receives
an "Invalid number format" diagnostic. -/
theorem C2_counterexample :
    tokenize "1.".toList = [⟨"NUMBER", ['1', '.'], 0, 0, none⟩] ∧
    validateDocument (tokenize "1.".toList) = [] := by
  constructor
  · simp [tokenize, tokenizeLoop, scanToken, readString, readStringLoop, readNumber,
          readIdentifier, skipWhitespace, skipCommentLoop, skipComment, advance,
          isJsWhitespace, isWordChar, KEYWORDS, isTwoCharOp]
  · simp [tokenize, tokenizeLoop, scanToken, readString, readStringLoop, readNumber,
          readIdentifier, skipWhitespace, skipCommentLoop, skipComment, advance,
          isJsWhitespace, isWordChar, KEYWORDS, isTwoCharOp,
          validateDocument, diagsFor, jsNumValid]

/-- C2 (amended): `validateDocument` emits an "Invalid number format"
diagnostic with severity Error and a range spanning the token's full
text width exactly for the Number tokens whose text fails the code's
pattern `digits '.'? digits*` (`/^\d+\.?\d*$/`).  Unlike the claimed
strict `digits ('.' digits)?`, this pattern accepts a trailing dot, so
the single Number token of input `1.` receives no diagnostic. -/
theorem C2_number_diagnostics :
    (∀ (ts : List Token) (t : Token), t ∈ ts → t.type = "NUMBER" →
       jsNumValid t.value = false → numDiagFor t ∈ validateDocument ts) ∧
    (∀ (ts : List Token) (d : Diagnostic), d ∈ validateDocument ts →
       d.message = "Invalid number format" →
       ∃ t, t ∈ ts ∧ t.type = "NUMBER" ∧ jsNumValid t.value = false ∧
         d = numDiagFor t) ∧
    validateDocument (tokenize "1.".toList) = [] := by
  refine ⟨?_, ?_, ?_⟩
  · intro ts t ht htype hnum
    refine List.mem_flatMap.mpr ⟨t, ht, ?_⟩
    simp [diagsFor, htype, hnum]
  · intro ts d hd hmsg
    obtain ⟨t, ht, hdt⟩ := List.mem_flatMap.mp hd
    unfold diagsFor at hdt
    rcases List.mem_append.mp hdt with hs | hn
    · split at hs
      · simp only [List.mem_singleton] at hs
        subst hs
        simp [stringDiagFor] at hmsg
      · simp at hs
    · split at hn
      · rename_i hcond
        simp only [List.mem_singleton] at hn
        subst hn
        exact ⟨t, ht, hcond.1, by simpa using hcond.2, rfl⟩
      · simp at hn
  · simp [tokenize, tokenizeLoop, scanToken, readString, readStringLoop, readNumber,
          readIdentifier, skipWhitespace, skipCommentLoop, skipComment, advance,
          isJsWhitespace, isWordChar, KEYWORDS, isTwoCharOp,
          validateDocument, diagsFor, jsNumValid]

/-- Witness for C2: the malformed number `1.2.3` does receive the
diagnostic. -/
theorem C2_number_diagnostics_witness :
    numDiagFor ⟨"NUMBER", "1.2.3".toList, 0, 0, none⟩ ∈
      validateDocument [⟨"NUMBER", "1.2.3".toList, 0, 0, none⟩] :=
  C2_number_diagnostics.1 _ _ (by simp) rfl (by decide)

/-- C3 (code evaluated at the failing input): after a line comment
terminated by a newline, `tokenize` emits a `PUNCTUATION` token whose
value is that newline character — the newline that ends a comment is
not skipped, so whitespace text does appear as a token value. -/
theorem C3_comment_newline_becomes_token :
    tokenize "% c\nx".toList =
      [⟨"PUNCTUATION", ['\n'], 0, 3, none⟩, ⟨"IDENTIFIER", ['x'], 1, 0, none⟩] := by
  simp [tokenize, tokenizeLoop, scanToken, readString, readStringLoop, readNumber,
        readIdentifier, skipWhitespace, skipCommentLoop, skipComment, advance,
        isJsWhitespace, isWordChar, KEYWORDS, isTwoCharOp]

theorem mapGet_nil (k : List Char) : mapGet [] k = none := rfl

theorem mapGet_cons (p : List Char × AsteroidSymbol)
    (rest : List (List Char × AsteroidSymbol)) (k : List Char) :
    mapGet (p :: rest) k = if p.1 = k then some p.2 else mapGet rest k := by
  rfl

theorem mapSet_nil (k : List Char) (v : AsteroidSymbol) :
    mapSet [] k v = [(k, v)] := rfl

theorem mapSet_cons (p : List Char × AsteroidSymbol)
    (rest : List (List Char × AsteroidSymbol)) (k : List Char) (v : AsteroidSymbol) :
    mapSet (p :: rest) k v =
      if p.1 = k then (k, v) :: rest else p :: mapSet rest k v := by
  rfl

theorem mapGet_set_same (m : List (List Char × AsteroidSymbol)) (k : List Char)
    (v : AsteroidSymbol) : mapGet (mapSet m k v) k = some v := by
  induction m with
  | nil => rw [mapSet_nil, mapGet_cons, if_pos rfl]
  | cons p rest ih =>
    rw [mapSet_cons]
    by_cases hk : p.1 = k
    · rw [if_pos hk, mapGet_cons, if_pos rfl]
    · rw [if_neg hk, mapGet_cons, if_neg hk]
      exact ih

theorem mapGet_set_ne (m : List (List Char × AsteroidSymbol)) (k n : List Char)
    (v : AsteroidSymbol) (h : ¬(n = k)) :
    mapGet (mapSet m k v) n = mapGet m n := by
  have hk : ¬(k = n) := fun hkn => h hkn.symm
  induction m with
  | nil => rw [mapSet_nil, mapGet_cons, if_neg hk, mapGet_nil]
  | cons p rest ih =>
    rw [mapSet_cons]
    by_cases hp : p.1 = k
    · rw [if_pos hp, mapGet_cons, mapGet_cons, if_neg hk]
      rw [hp]
      rw [if_neg hk]
    · rw [if_neg hp, mapGet_cons, mapGet_cons]
      by_cases hn : p.1 = n
      · rw [if_pos hn, if_pos hn]
      · rw [if_neg hn, if_neg hn]
        exact ih

theorem mem_keys_mapSet (m : List (List Char × AsteroidSymbol)) (k a : List Char)
    (v : AsteroidSymbol) (h : a ∈ (mapSet m k v).map Prod.fst) :
    a ∈ m.map Prod.fst ∨ a = k := by
  induction m with
  | nil =>
    rw [mapSet_nil] at h
    simp at h
    exact Or.inr h
  | cons p rest ih =>
    rw [mapSet_cons] at h
    by_cases hk : p.1 = k
    · rw [if_pos hk] at h
      simp only [List.map_cons, List.mem_cons] at h
      rcases h with h | h
      · exact Or.inr h
      · exact Or.inl (by simp only [List.map_cons, List.mem_cons]; exact Or.inr h)
    · rw [if_neg hk] at h
      simp only [List.map_cons, List.mem_cons] at h
      rcases h with h | h
      · exact Or.inl (by simp only [List.map_cons, List.mem_cons]; exact Or.inl h)
      · rcases ih h with h' | h'
        · exact Or.inl (by simp only [List.map_cons, List.mem_cons]; exact Or.inr h')
        · exact Or.inr h'

theorem mapSet_keys_nodup (m : List (List Char × AsteroidSymbol)) (k : List Char)
    (v : AsteroidSymbol) (h : (m.map Prod.fst).Nodup) :
    ((mapSet m k v).map Prod.fst).Nodup := by
  induction m with
  | nil =>
    rw [mapSet_nil]
    simp
  | cons p rest ih =>
    rw [mapSet_cons]
    simp only [List.map_cons, List.nodup_cons] at h
    by_cases hk : p.1 = k
    · rw [if_pos hk]
      simp only [List.map_cons, List.nodup_cons]
      exact ⟨by rw [← hk]; exact h.1, h.2⟩
    · rw [if_neg hk]
      simp only [List.map_cons, List.nodup_cons]
      constructor
      · intro hmem
        rcases mem_keys_mapSet rest k p.1 v hmem with h' | h'
        · exact h.1 h'
        · exact hk h'
      · exact ih h.2

/-- The sub-map/main-table relationship maintained by the extractor:
sub-map names are present in the main table, and a main-table entry
whose display type is `"function"`/`"variable"` coincides with the
corresponding sub-map entry.  The main table's keys stay duplicate
free. -/
def ParseInv (info : DocumentInfo) : Prop :=
  ((info.symbols.map Prod.fst).Nodup) ∧
  (∀ n, (mapGet info.functions n).isSome → (mapGet info.symbols n).isSome) ∧
  (∀ n, (mapGet info.«variables» n).isSome → (mapGet info.symbols n).isSome) ∧
  (∀ n sym, mapGet info.symbols n = some sym → sym.type = "function".toList →
    mapGet info.functions n = some sym) ∧
  (∀ n sym, mapGet info.symbols n = some sym → sym.type = "variable".toList →
    mapGet info.«variables» n = some sym)

theorem isSome_set_both (sy fu : List (List Char × AsteroidSymbol))
    (k : List Char) (v : AsteroidSymbol)
    (h : ∀ n, (mapGet fu n).isSome → (mapGet sy n).isSome) :
    ∀ n, (mapGet (mapSet fu k v) n).isSome → (mapGet (mapSet sy k v) n).isSome := by
  intro n hn
  by_cases hk : n = k
  · subst hk
    rw [mapGet_set_same]
    rfl
  · rw [mapGet_set_ne sy k n v hk]
    rw [mapGet_set_ne fu k n v hk] at hn
    exact h n hn

theorem isSome_set_main (sy other : List (List Char × AsteroidSymbol))
    (k : List Char) (v : AsteroidSymbol)
    (h : ∀ n, (mapGet other n).isSome → (mapGet sy n).isSome) :
    ∀ n, (mapGet other n).isSome → (mapGet (mapSet sy k v) n).isSome := by
  intro n hn
  by_cases hk : n = k
  · subst hk
    rw [mapGet_set_same]
    rfl
  · rw [mapGet_set_ne sy k n v hk]
    exact h n hn

theorem typed_set_both (sy fu : List (List Char × AsteroidSymbol))
    (k : List Char) (v : AsteroidSymbol) (ty : List Char) (hv : v.type = ty)
    (h : ∀ n sym, mapGet sy n = some sym → sym.type = ty → mapGet fu n = some sym) :
    ∀ n sym, mapGet (mapSet sy k v) n = some sym → sym.type = ty →
      mapGet (mapSet fu k v) n = some sym := by
  intro n sym hn hty
  by_cases hk : n = k
  · subst hk
    rw [mapGet_set_same] at hn
    injection hn with hn
    subst hn
    rw [mapGet_set_same]
  · rw [mapGet_set_ne sy k n v hk] at hn
    rw [mapGet_set_ne fu k n v hk]
    exact h n sym hn hty

theorem typed_set_main_only (sy other : List (List Char × AsteroidSymbol))
    (k : List Char) (v : AsteroidSymbol) (ty : List Char) (hv : ¬(v.type = ty))
    (h : ∀ n sym, mapGet sy n = some sym → sym.type = ty → mapGet other n = some sym) :
    ∀ n sym, mapGet (mapSet sy k v) n = some sym → sym.type = ty →
      mapGet other n = some sym := by
  intro n sym hn hty
  by_cases hk : n = k
  · subst hk
    rw [mapGet_set_same] at hn
    injection hn with hn
    subst hn
    exact absurd hty hv
  · rw [mapGet_set_ne sy k n v hk] at hn
    exact h n sym hn hty

theorem parseLoad_info (ts : List Token) (pos : Nat) (info : DocumentInfo) :
    (parseLoad ts pos info).2.symbols = info.symbols ∧
    (parseLoad ts pos info).2.functions = info.functions ∧
    (parseLoad ts pos info).2.«variables» = info.«variables» := by
  unfold parseLoad
  split
  · split
    · split
      · split
        · exact ⟨rfl, rfl, rfl⟩
        · exact ⟨rfl, rfl, rfl⟩
      · exact ⟨rfl, rfl, rfl⟩
    · exact ⟨rfl, rfl, rfl⟩
  · exact ⟨rfl, rfl, rfl⟩

theorem parseLoad_inv (ts : List Token) (pos : Nat) (info : DocumentInfo)
    (h : ParseInv info) : ParseInv (parseLoad ts pos info).2 := by
  have hm := parseLoad_info ts pos info
  unfold ParseInv
  rw [hm.1, hm.2.1, hm.2.2]
  exact h

theorem parseFunction_inv (ts : List Token) (pos : Nat) (info : DocumentInfo)
    (h : ParseInv info) : ParseInv (parseFunction ts pos info).2 := by
  obtain ⟨h1, h2, h3, h4, h5⟩ := h
  unfold parseFunction
  split
  · split
    · refine ⟨?_, ?_, ?_, ?_, ?_⟩
      · exact mapSet_keys_nodup _ _ _ h1
      · exact isSome_set_both _ _ _ _ h2
      · exact isSome_set_main _ _ _ _ h3
      · exact typed_set_both _ _ _ _ _ rfl h4
      · refine typed_set_main_only _ _ _ _ _ ?_ h5
        show ¬("function".toList = "variable".toList)
        decide
    · exact ⟨h1, h2, h3, h4, h5⟩
  · exact ⟨h1, h2, h3, h4, h5⟩
  · exact ⟨h1, h2, h3, h4, h5⟩

theorem parseVariable_inv (ts : List Token) (pos : Nat) (info : DocumentInfo)
    (h : ParseInv info) : ParseInv (parseVariable ts pos info).2 := by
  obtain ⟨h1, h2, h3, h4, h5⟩ := h
  unfold parseVariable
  split
  · split
    · refine ⟨?_, ?_, ?_, ?_, ?_⟩
      · exact mapSet_keys_nodup _ _ _ h1
      · exact isSome_set_main _ _ _ _ h2
      · exact isSome_set_both _ _ _ _ h3
      · refine typed_set_main_only _ _ _ _ _ ?_ h4
        show ¬("variable".toList = "function".toList)
        decide
      · exact typed_set_both _ _ _ _ _ rfl h5
    · exact ⟨h1, h2, h3, h4, h5⟩
  · exact ⟨h1, h2, h3, h4, h5⟩
  · exact ⟨h1, h2, h3, h4, h5⟩

theorem parseStruct_inv (ts : List Token) (pos : Nat) (info : DocumentInfo)
    (hv : ∀ t, ts.get? pos = some t →
      t.value = "struct".toList ∨ t.value = "data".toList)
    (h : ParseInv info) : ParseInv (parseStruct ts pos info).2 := by
  obtain ⟨h1, h2, h3, h4, h5⟩ := h
  unfold parseStruct
  split
  · rename_i startTok nameTok hstart hname
    split
    · have hsv := hv startTok hstart
      refine ⟨?_, ?_, ?_, ?_, ?_⟩
      · exact mapSet_keys_nodup _ _ _ h1
      · exact isSome_set_main _ _ _ _ h2
      · exact isSome_set_main _ _ _ _ h3
      · refine typed_set_main_only _ _ _ _ _ ?_ h4
        show ¬(startTok.value = "function".toList)
        rcases hsv with hsv | hsv <;> rw [hsv] <;> decide
      · refine typed_set_main_only _ _ _ _ _ ?_ h5
        show ¬(startTok.value = "variable".toList)
        rcases hsv with hsv | hsv <;> rw [hsv] <;> decide
    · exact ⟨h1, h2, h3, h4, h5⟩
  · exact ⟨h1, h2, h3, h4, h5⟩
  · exact ⟨h1, h2, h3, h4, h5⟩

theorem parseLoop_eq_some (ts : List Token) (pos : Nat) (info : DocumentInfo)
    (t : Token) (hT : ts.get? pos = some t) :
    parseLoop ts pos info =
      if t.type = "KEYWORD" then
        if t.value = "load".toList then
          parseLoop ts (parseLoad ts pos info).1 (parseLoad ts pos info).2
        else if t.value = "function".toList then
          parseLoop ts (parseFunction ts pos info).1 (parseFunction ts pos info).2
        else if t.value = "let".toList then
          parseLoop ts (parseVariable ts pos info).1 (parseVariable ts pos info).2
        else if t.value = "struct".toList ∨ t.value = "data".toList then
          parseLoop ts (parseStruct ts pos info).1 (parseStruct ts pos info).2
        else parseLoop ts (pos + 1) info
      else parseLoop ts (pos + 1) info := by
  conv_lhs => rw [parseLoop.eq_def]
  split
  · rename_i t' hT'
    rw [hT] at hT'
    injection hT' with h
    subst h
    rfl
  · rename_i hT'
    rw [hT] at hT'
    cases hT'

theorem parseLoop_eq_none (ts : List Token) (pos : Nat) (info : DocumentInfo)
    (hT : ts.get? pos = none) : parseLoop ts pos info = info := by
  conv_lhs => rw [parseLoop.eq_def]
  split
  · rename_i t' hT'
    rw [hT] at hT'
    cases hT'
  · rfl

theorem parseLoop_inv (ts : List Token) (pos : Nat) (info : DocumentInfo) :
    ParseInv info → ParseInv (parseLoop ts pos info) := by
  induction pos, info using parseLoop.induct ts with
  | case1 pos info t hT hty hld ih =>
    intro hinv
    rw [parseLoop_eq_some ts pos info t hT, if_pos hty, if_pos hld]
    exact ih (parseLoad_inv ts pos info hinv)
  | case2 pos info t hT hty hld hfn ih =>
    intro hinv
    rw [parseLoop_eq_some ts pos info t hT, if_pos hty, if_neg hld, if_pos hfn]
    exact ih (parseFunction_inv ts pos info hinv)
  | case3 pos info t hT hty hld hfn hlt ih =>
    intro hinv
    rw [parseLoop_eq_some ts pos info t hT, if_pos hty, if_neg hld, if_neg hfn,
        if_pos hlt]
    exact ih (parseVariable_inv ts pos info hinv)
  | case4 pos info t hT hty hld hfn hlt hsd ih =>
    intro hinv
    rw [parseLoop_eq_some ts pos info t hT, if_pos hty, if_neg hld, if_neg hfn,
        if_neg hlt, if_pos hsd]
    refine ih (parseStruct_inv ts pos info ?_ hinv)
    intro t' hget
    rw [hT] at hget
    injection hget with hget
    subst hget
    exact hsd
  | case5 pos info t hT hty hld hfn hlt hsd ih =>
    intro hinv
    rw [parseLoop_eq_some ts pos info t hT, if_pos hty, if_neg hld, if_neg hfn,
        if_neg hlt, if_neg hsd]
    exact ih hinv
  | case6 pos info t hT hty ih =>
    intro hinv
    rw [parseLoop_eq_some ts pos info t hT, if_neg hty]
    exact ih hinv
  | case7 pos info hT =>
    intro hinv
    rw [parseLoop_eq_none ts pos info hT]
    exact hinv

theorem parse_inv (ts : List Token) : ParseInv (parse ts) := by
  unfold parse
  refine parseLoop_inv ts 0 ⟨[], [], [], []⟩ ?_
  refine ⟨by simp, ?_, ?_, ?_, ?_⟩ <;> intro n <;> simp [mapGet]

/-- C4 counterexample: after `let x` followed by `function x`, the name
`x` is still present in the variables sub-map with the old Variable
symbol, while the main table holds the overwriting Function symbol —
the sub-map entry does not map to the same Symbol as the main table. -/
theorem C4_counterexample :
    mapGet (parse (tokenize "let x function x".toList)).«variables» ['x'] =
      some ⟨['x'], SymKind.Variable, ⟨⟨0, 0⟩, ⟨0, 5⟩⟩, ⟨⟨0, 0⟩, ⟨0, 5⟩⟩,
            "variable".toList⟩ ∧
    mapGet (parse (tokenize "let x function x".toList)).symbols ['x'] =
      some ⟨['x'], SymKind.Function, ⟨⟨0, 6⟩, ⟨0, 16⟩⟩, ⟨⟨0, 6⟩, ⟨0, 16⟩⟩,
            "function".toList⟩ ∧
    mapGet (parse (tokenize "let x function x".toList)).«variables» ['x'] ≠
      mapGet (parse (tokenize "let x function x".toList)).symbols ['x'] := by
  refine ⟨?_, ?_, ?_⟩ <;>
    simp [tokenize, tokenizeLoop, scanToken, readString, readStringLoop, readNumber,
          readIdentifier, skipWhitespace, skipCommentLoop, skipComment, advance,
          isJsWhitespace, isWordChar, KEYWORDS, isTwoCharOp,
          parse, parseLoop, parseLoad, parseFunction, parseVariable, parseStruct,
          mapGet, mapSet]

/-- C4 (amended): every name present in the functions (resp. variables)
sub-map is also present in the main symbols table; the sub-map entry
coincides with the main-table entry whenever the main entry's display
type is `"function"` (resp. `"variable"`), but a later declaration of
the same name with a different kind overwrites the main-table entry
while the stale sub-map entry remains. -/
theorem C4_submaps_mirror_main_table :
    ∀ ts : List Token,
      (∀ n, (mapGet (parse ts).functions n).isSome →
        (mapGet (parse ts).symbols n).isSome) ∧
      (∀ n, (mapGet (parse ts).«variables» n).isSome →
        (mapGet (parse ts).symbols n).isSome) ∧
      (∀ n sym, mapGet (parse ts).symbols n = some sym →
        sym.type = "function".toList → mapGet (parse ts).functions n = some sym) ∧
      (∀ n sym, mapGet (parse ts).symbols n = some sym →
        sym.type = "variable".toList → mapGet (parse ts).«variables» n = some sym) := by
  intro ts
  have h := parse_inv ts
  exact ⟨h.2.1, h.2.2.1, h.2.2.2.1, h.2.2.2.2⟩

/-- Witness for C4: in `function f`, the sub-map name `f` is present in
the main table. -/
theorem C4_submaps_mirror_main_table_witness :
    (mapGet (parse (tokenize "function f".toList)).symbols ['f']).isSome :=
  (C4_submaps_mirror_main_table (tokenize "function f".toList)).1 ['f']
    (by simp [tokenize, tokenizeLoop, scanToken, readString, readStringLoop, readNumber,
              readIdentifier, skipWhitespace, skipCommentLoop, skipComment, advance,
              isJsWhitespace, isWordChar, KEYWORDS, isTwoCharOp,
              parse, parseLoop, parseLoad, parseFunction, parseVariable, parseStruct,
              mapGet, mapSet])

/-- C5: the main symbol table never holds two entries with the same
name (its keys are duplicate free for every token sequence), and for
`let x = 1 let x = 2` the final table is exactly one entry for `x`
carrying the second declaration's range (columns 10–15). -/
theorem C5_last_declaration_wins :
    (∀ ts : List Token, ((parse ts).symbols.map Prod.fst).Nodup) ∧
    (parse (tokenize "let x = 1 let x = 2".toList)).symbols =
      [(['x'], ⟨['x'], SymKind.Variable, ⟨⟨0, 10⟩, ⟨0, 15⟩⟩, ⟨⟨0, 10⟩, ⟨0, 15⟩⟩,
                "variable".toList⟩)] := by
  constructor
  · intro ts
    exact (parse_inv ts).1
  · simp [tokenize, tokenizeLoop, scanToken, readString, readStringLoop, readNumber,
          readIdentifier, skipWhitespace, skipCommentLoop, skipComment, advance,
          isJsWhitespace, isWordChar, KEYWORDS, isTwoCharOp,
          parse, parseLoop, parseLoad, parseFunction, parseVariable, parseStruct,
          mapGet, mapSet]

/-- C6: for every recognized `function`/`let`/`struct`/`data`
declaration (handler invoked at `pos`, with the identifier token at
`pos + 1`), the stored Symbol's declaration range starts at the keyword
token's own line/column and ends at the identifier token's line and
column plus the identifier text length — so a keyword and identifier on
different lines produce a multi-line range. -/
theorem C6_declaration_range :
    ∀ (ts : List Token) (pos : Nat) (info : DocumentInfo) (startTok nameTok : Token),
      ts.get? pos = some startTok → ts.get? (pos + 1) = some nameTok →
      nameTok.type = "IDENTIFIER" →
      mapGet (parseFunction ts pos info).2.symbols nameTok.value =
        some ⟨nameTok.value, SymKind.Function,
              ⟨⟨startTok.line, startTok.column⟩,
               ⟨nameTok.line, nameTok.column + nameTok.value.length⟩⟩,
              ⟨⟨startTok.line, startTok.column⟩,
               ⟨nameTok.line, nameTok.column + nameTok.value.length⟩⟩,
              "function".toList⟩ ∧
      mapGet (parseVariable ts pos info).2.symbols nameTok.value =
        some ⟨nameTok.value, SymKind.Variable,
              ⟨⟨startTok.line, startTok.column⟩,
               ⟨nameTok.line, nameTok.column + nameTok.value.length⟩⟩,
              ⟨⟨startTok.line, startTok.column⟩,
               ⟨nameTok.line, nameTok.column + nameTok.value.length⟩⟩,
              "variable".toList⟩ ∧
      mapGet (parseStruct ts pos info).2.symbols nameTok.value =
        some ⟨nameTok.value, SymKind.Struct,
              ⟨⟨startTok.line, startTok.column⟩,
               ⟨nameTok.line, nameTok.column + nameTok.value.length⟩⟩,
              ⟨⟨startTok.line, startTok.column⟩,
               ⟨nameTok.line, nameTok.column + nameTok.value.length⟩⟩,
              startTok.value⟩ := by
  intro ts pos info startTok nameTok hstart hname hid
  refine ⟨?_, ?_, ?_⟩
  · unfold parseFunction
    rw [hstart, hname]
    dsimp only
    rw [if_pos hid]
    exact mapGet_set_same info.symbols nameTok.value _
  · unfold parseVariable
    rw [hstart, hname]
    dsimp only
    rw [if_pos hid]
    exact mapGet_set_same info.symbols nameTok.value _
  · unfold parseStruct
    rw [hstart, hname]
    dsimp only
    rw [if_pos hid]
    exact mapGet_set_same info.symbols nameTok.value _

/-- Witness for C6: `function` on line 0 and `foo` on line 1 produce a
declaration range spanning from (0,0) to (1,3). -/
theorem C6_declaration_range_witness :
    mapGet (parseFunction (tokenize "function\nfoo".toList) 0
        ⟨[], [], [], []⟩).2.symbols "foo".toList =
      some ⟨"foo".toList, SymKind.Function, ⟨⟨0, 0⟩, ⟨1, 3⟩⟩, ⟨⟨0, 0⟩, ⟨1, 3⟩⟩,
            "function".toList⟩ :=
  (C6_declaration_range (tokenize "function\nfoo".toList) 0 ⟨[], [], [], []⟩
      ⟨"KEYWORD", "function".toList, 0, 0, none⟩
      ⟨"IDENTIFIER", "foo".toList, 1, 0, none⟩
      (by simp [tokenize, tokenizeLoop, scanToken, readString, readStringLoop,
                readNumber, readIdentifier, skipWhitespace, skipCommentLoop,
                skipComment, advance, isJsWhitespace, isWordChar, KEYWORDS,
                isTwoCharOp])
      (by simp [tokenize, tokenizeLoop, scanToken, readString, readStringLoop,
                readNumber, readIdentifier, skipWhitespace, skipCommentLoop,
                skipComment, advance, isJsWhitespace, isWordChar, KEYWORDS,
                isTwoCharOp])
      rfl).1

/-- C8: processing `load` appends the following identifier's text to
the import list exactly when `load` is immediately followed by the
`system` keyword and then an Identifier token; on any deviation the
`DocumentInfo` is left unchanged.  The load handler never touches the
symbol table or the sub-maps, and the extractor has no diagnostics
channel at all (`validateDocument` reads only the token list), so no
diagnostic can be raised. -/
theorem C8_parseLoad_imports :
    ∀ (ts : List Token) (pos : Nat) (info : DocumentInfo),
      (∀ sysTok modTok, ts.get? (pos + 1) = some sysTok →
        sysTok.type = "KEYWORD" → sysTok.value = "system".toList →
        ts.get? (pos + 2) = some modTok → modTok.type = "IDENTIFIER" →
        (parseLoad ts pos info).2 =
          { info with imports := info.imports ++ [modTok.value] }) ∧
      ((¬∃ sysTok modTok, ts.get? (pos + 1) = some sysTok ∧
          sysTok.type = "KEYWORD" ∧ sysTok.value = "system".toList ∧
          ts.get? (pos + 2) = some modTok ∧ modTok.type = "IDENTIFIER") →
        (parseLoad ts pos info).2 = info) ∧
      (parseLoad ts pos info).2.symbols = info.symbols ∧
      (parseLoad ts pos info).2.functions = info.functions ∧
      (parseLoad ts pos info).2.«variables» = info.«variables» := by
  intro ts pos info
  refine ⟨?_, ?_, (parseLoad_info ts pos info).1, (parseLoad_info ts pos info).2.1,
          (parseLoad_info ts pos info).2.2⟩
  · intro sysTok modTok hsys hsyty hsysv hmod hmodty
    unfold parseLoad
    rw [hsys]
    dsimp only
    rw [if_pos ⟨hsyty, hsysv⟩, hmod]
    dsimp only
    rw [if_pos hmodty]
  · intro hdev
    unfold parseLoad
    match h1 : ts.get? (pos + 1) with
    | none => rfl
    | some sysTok =>
      dsimp only
      by_cases hcond : sysTok.type = "KEYWORD" ∧ sysTok.value = "system".toList
      · rw [if_pos hcond]
        match h2 : ts.get? (pos + 2) with
        | none => rfl
        | some modTok =>
          dsimp only
          by_cases hmodty : modTok.type = "IDENTIFIER"
          · exact absurd ⟨sysTok, modTok, h1, hcond.1, hcond.2, h2, hmodty⟩ hdev
          · rw [if_neg hmodty]
      · rw [if_neg hcond]

/-- Witness for C8: `load system io` records the import `io`;
`load system` at end of input records nothing. -/
theorem C8_parseLoad_imports_witness :
    (parseLoad (tokenize "load system io".toList) 0 ⟨[], [], [], []⟩).2 =
      { symbols := [], imports := ["io".toList], functions := [],
        «variables» := [] } ∧
    (parseLoad (tokenize "load system".toList) 0 ⟨[], [], [], []⟩).2 =
      ⟨[], [], [], []⟩ := by
  constructor
  · exact
      (C8_parseLoad_imports (tokenize "load system io".toList) 0 ⟨[], [], [], []⟩).1
        ⟨"KEYWORD", "system".toList, 0, 5, none⟩
        ⟨"IDENTIFIER", "io".toList, 0, 12, none⟩
        (by simp [tokenize, tokenizeLoop, scanToken, readString, readStringLoop,
                  readNumber, readIdentifier, skipWhitespace, skipCommentLoop,
                  skipComment, advance, isJsWhitespace, isWordChar, KEYWORDS,
                  isTwoCharOp])
        rfl rfl
        (by simp [tokenize, tokenizeLoop, scanToken, readString, readStringLoop,
                  readNumber, readIdentifier, skipWhitespace, skipCommentLoop,
                  skipComment, advance, isJsWhitespace, isWordChar, KEYWORDS,
                  isTwoCharOp])
        rfl
  · refine
      (C8_parseLoad_imports (tokenize "load system".toList) 0 ⟨[], [], [], []⟩).2.1 ?_
    intro hdev
    obtain ⟨sysTok, modTok, h1, h2, h3, h4, h5⟩ := hdev
    rw [show tokenize "load system".toList =
        [⟨"KEYWORD", "load".toList, 0, 0, none⟩,
         ⟨"KEYWORD", "system".toList, 0, 5, none⟩] from by
      simp [tokenize, tokenizeLoop, scanToken, readString, readStringLoop,
            readNumber, readIdentifier, skipWhitespace, skipCommentLoop,
            skipComment, advance, isJsWhitespace, isWordChar, KEYWORDS,
            isTwoCharOp]] at h4
    cases h4

theorem findStart_le (line : List Char) (start : Nat) :
    findStart line start ≤ start := by
  induction start with
  | zero => simp [findStart]
  | succ n ih =>
    unfold findStart
    split
    · split
      · omega
      · omega
    · omega

theorem findStart_mem (line : List Char) (start : Nat) :
    ∀ i, findStart line start ≤ i → i < start →
      ∃ c, line.get? i = some c ∧ isWordChar c = true := by
  induction start with
  | zero =>
    intro i h1 h2
    omega
  | succ n ih =>
    intro i h1 h2
    unfold findStart at h1
    split at h1
    · rename_i c hc
      split at h1
      · rename_i hw
        by_cases hi : i < n
        · exact ih i h1 hi
        · have : i = n := by omega
          subst this
          exact ⟨c, hc, hw⟩
      · omega
    · omega

theorem findStart_boundary (line : List Char) (start : Nat) :
    findStart line start = 0 ∨
      ∀ c, line.get? (findStart line start - 1) = some c → isWordChar c = false := by
  induction start with
  | zero => exact Or.inl rfl
  | succ n ih =>
    unfold findStart
    split
    · rename_i c hc
      split
      · exact ih
      · rename_i hw
        refine Or.inr ?_
        intro c' hc'
        simp only [Nat.add_sub_cancel] at hc'
        rw [hc] at hc'
        injection hc' with hc'
        subst hc'
        exact Bool.not_eq_true _ ▸ (by simpa using hw)
    · rename_i hc
      refine Or.inr ?_
      intro c' hc'
      simp only [Nat.add_sub_cancel] at hc'
      rw [hc] at hc'
      cases hc'

theorem findEnd_eq_some (line : List Char) (e : Nat) (c : Char)
    (h : line.get? e = some c) :
    findEnd line e = if isWordChar c then findEnd line (e + 1) else e := by
  conv_lhs => rw [findEnd.eq_def]
  split
  · rename_i c' hc'
    rw [h] at hc'
    injection hc' with hc'
    subst hc'
    rfl
  · rename_i hc'
    rw [h] at hc'
    cases hc'

theorem findEnd_eq_none (line : List Char) (e : Nat) (h : line.get? e = none) :
    findEnd line e = e := by
  conv_lhs => rw [findEnd.eq_def]
  split
  · rename_i c' hc'
    rw [h] at hc'
    cases hc'
  · rfl

theorem findEnd_ge (line : List Char) (e : Nat) : e ≤ findEnd line e := by
  induction e using findEnd.induct line with
  | case1 e c h hw ih =>
    rw [findEnd_eq_some line e c h, if_pos hw]
    omega
  | case2 e c h hw =>
    rw [findEnd_eq_some line e c h, if_neg hw]
  | case3 e h =>
    rw [findEnd_eq_none line e h]

theorem findEnd_le_len (line : List Char) (e : Nat) (he : e ≤ line.length) :
    findEnd line e ≤ line.length := by
  induction e using findEnd.induct line with
  | case1 e c h hw ih =>
    rw [findEnd_eq_some line e c h, if_pos hw]
    exact ih (by have := (List.get?_eq_some.mp h).1; omega)
  | case2 e c h hw =>
    rw [findEnd_eq_some line e c h, if_neg hw]
    exact he
  | case3 e h =>
    rw [findEnd_eq_none line e h]
    exact he

theorem findEnd_mem (line : List Char) (e : Nat) :
    ∀ i, e ≤ i → i < findEnd line e →
      ∃ c, line.get? i = some c ∧ isWordChar c = true := by
  induction e using findEnd.induct line with
  | case1 e c h hw ih =>
    intro i h1 h2
    rw [findEnd_eq_some line e c h, if_pos hw] at h2
    by_cases hi : e + 1 ≤ i
    · exact ih i hi h2
    · have : i = e := by omega
      subst this
      exact ⟨c, h, hw⟩
  | case2 e c h hw =>
    intro i h1 h2
    rw [findEnd_eq_some line e c h, if_neg hw] at h2
    omega
  | case3 e h =>
    intro i h1 h2
    rw [findEnd_eq_none line e h] at h2
    omega

theorem findEnd_boundary (line : List Char) (e : Nat) :
    line.get? (findEnd line e) = none ∨
      ∃ c, line.get? (findEnd line e) = some c ∧ isWordChar c = false := by
  induction e using findEnd.induct line with
  | case1 e c h hw ih =>
    rw [findEnd_eq_some line e c h, if_pos hw]
    exact ih
  | case2 e c h hw =>
    rw [findEnd_eq_some line e c h, if_neg hw]
    exact Or.inr ⟨c, h, by simpa using hw⟩
  | case3 e h =>
    rw [findEnd_eq_none line e h]
    exact Or.inl h

theorem findEnd_gt (line : List Char) (e : Nat) (c : Char)
    (h : line.get? e = some c) (hw : isWordChar c = true) :
    e < findEnd line e := by
  rw [findEnd_eq_some line e c h, if_pos hw]
  have := findEnd_ge line (e + 1)
  omega

/-- C7: whenever the character at the cursor offset belongs to the
class `[A-Za-z0-9_]`, word resolution returns the maximal contiguous
run of word characters containing that offset: every character inside
the returned range is a word character, and both boundaries are limits
(start of line / non-word character before, end of line / non-word
character after). -/
theorem C7_word_resolution :
    ∀ (line : List Char) (ch : Nat) (c : Char),
      line.get? ch = some c → isWordChar c = true →
      ∃ s e, getWordRangeAtPosition line ch = some (s, e) ∧
        s ≤ ch ∧ ch < e ∧ e ≤ line.length ∧
        (∀ i, s ≤ i → i < e → ∃ ci, line.get? i = some ci ∧ isWordChar ci = true) ∧
        (s = 0 ∨ ∀ ci, line.get? (s - 1) = some ci → isWordChar ci = false) ∧
        (e = line.length ∨ ∀ ci, line.get? e = some ci → isWordChar ci = false) := by
  intro line ch c hc hw
  have hch : ch < line.length := (List.get?_eq_some.mp hc).1
  have hs_le := findStart_le line ch
  have he_gt := findEnd_gt line ch c hc hw
  have he_le := findEnd_le_len line ch (by omega)
  refine ⟨findStart line ch, findEnd line ch, ?_, hs_le, he_gt, he_le, ?_, ?_, ?_⟩
  · unfold getWordRangeAtPosition
    rw [if_pos hch, if_neg (by omega)]
  · intro i h1 h2
    by_cases hi : i < ch
    · exact findStart_mem line ch i h1 hi
    · exact findEnd_mem line ch i (by omega) h2
  · exact findStart_boundary line ch
  · rcases findEnd_boundary line ch with h | ⟨c', hc', hw'⟩
    · refine Or.inl ?_
      have := List.get?_eq_none.mp h
      omega
    · refine Or.inr ?_
      intro ci hci
      rw [hc'] at hci
      injection hci with hci
      subst hci
      exact hw'

/-- Witness for C7: hover anywhere inside `factorial123` (offset 5)
resolves the whole identifier. -/
theorem C7_word_resolution_witness :
    ∃ s e, getWordRangeAtPosition "factorial123".toList 5 = some (s, e) ∧
      s ≤ 5 ∧ 5 < e ∧ e ≤ ("factorial123".toList : List Char).length ∧
      (∀ i, s ≤ i → i < e →
        ∃ ci, ("factorial123".toList : List Char).get? i = some ci ∧
          isWordChar ci = true) ∧
      (s = 0 ∨ ∀ ci, ("factorial123".toList : List Char).get? (s - 1) = some ci →
        isWordChar ci = false) ∧
      (e = ("factorial123".toList : List Char).length ∨
        ∀ ci, ("factorial123".toList : List Char).get? e = some ci →
          isWordChar ci = false) :=
  C7_word_resolution "factorial123".toList 5 'r' (by decide) (by decide)

/-- C9: independent of the cursor position, the completion result
contains an item for every fixed keyword, builtin function and system
module (each with its completion-kind tag and detail string), an item
for every Symbol in the document's table, and therefore always at
least |KEYWORDS| + |BUILTIN_FUNCTIONS| + |SYSTEM_MODULES| items. -/
theorem C9_completion_contents :
    ∀ (di : Option DocumentInfo) (p p' : LspPos),
      onCompletion di p = onCompletion di p' ∧
      (∀ k, k ∈ KEYWORDS →
        (⟨k, 14, "Asteroid keyword: ".toList ++ k⟩ : CompletionItem) ∈
          onCompletion di p) ∧
      (∀ f, f ∈ BUILTIN_FUNCTIONS →
        (⟨f, 3, "Built-in function: ".toList ++ f⟩ : CompletionItem) ∈
          onCompletion di p) ∧
      (∀ m, m ∈ SYSTEM_MODULES →
        (⟨m, 9, "System module: ".toList ++ m⟩ : CompletionItem) ∈
          onCompletion di p) ∧
      (∀ info pr, di = some info → pr ∈ info.symbols →
        symbolItem pr.2 ∈ onCompletion di p) ∧
      KEYWORDS.length + BUILTIN_FUNCTIONS.length + SYSTEM_MODULES.length ≤
        (onCompletion di p).length := by
  intro di p p'
  refine ⟨rfl, ?_, ?_, ?_, ?_, ?_⟩
  · intro k hk
    unfold onCompletion
    simp only [List.mem_append]
    exact Or.inl (Or.inl (Or.inl (List.mem_map.mpr ⟨k, hk, rfl⟩)))
  · intro f hf
    unfold onCompletion
    simp only [List.mem_append]
    exact Or.inl (Or.inl (Or.inr (List.mem_map.mpr ⟨f, hf, rfl⟩)))
  · intro m hm
    unfold onCompletion
    simp only [List.mem_append]
    exact Or.inl (Or.inr (List.mem_map.mpr ⟨m, hm, rfl⟩))
  · intro info pr hdi hpr
    unfold onCompletion
    subst hdi
    simp only [List.mem_append]
    exact Or.inr (List.mem_map.mpr ⟨pr, hpr, rfl⟩)
  · unfold onCompletion
    simp only [List.length_append, List.length_map]
    omega

/-- Witness for C9: with no cached document info, the keyword `and` is
offered, and the result has at least 43 + 41 + 7 = 91 items. -/
theorem C9_completion_contents_witness :
    (⟨"and".toList, 14, "Asteroid keyword: ".toList ++ "and".toList⟩ :
        CompletionItem) ∈ onCompletion none ⟨0, 0⟩ ∧
    KEYWORDS.length + BUILTIN_FUNCTIONS.length + SYSTEM_MODULES.length ≤
      (onCompletion none ⟨0, 0⟩).length :=
  ⟨(C9_completion_contents none ⟨0, 0⟩ ⟨0, 0⟩).2.1 "and".toList (by decide),
   (C9_completion_contents none ⟨0, 0⟩ ⟨0, 0⟩).2.2.2.2.2⟩

/-- C10: `tokenize` terminates on every finite input and returns a
finite token sequence.  The whitespace and comment skips never move the
scan position backward, every dispatch branch strictly advances it, and
consequently the number of produced tokens is bounded by the text
length. -/
theorem C10_tokenize_terminates :
    (∀ s : LexState, s.pos ≤ (skipWhitespace s).pos) ∧
    (∀ s : LexState, s.pos ≤ (skipComment s).pos) ∧
    (∀ (s : LexState) (h : s.pos < s.text.length), s.pos < (scanToken s h).2.pos) ∧
    (∀ text : List Char, (tokenize text).length ≤ text.length) := by
  refine ⟨skipWhitespace_pos_le, skipComment_pos_le, scanToken_pos_gt, ?_⟩
  intro text
  have := tokenizeLoop_length ⟨text, 0, 0, 0⟩
  simpa [tokenize] using this

/-- Witness for C10: one dispatch step on the one-character text `a`
advances the position past 0. -/
theorem C10_tokenize_terminates_witness :
    (0 : Nat) < (scanToken ⟨['a'], 0, 0, 0⟩ (by decide)).2.pos :=
  C10_tokenize_terminates.2.2.1 ⟨['a'], 0, 0, 0⟩ (by decide)

end Asteroid
